import Mathlib

/-
Verification development for the IATA BCBP barcode parser of the
AirtallyRest repository (src/barcode_parser.rs).

Strings are modelled as lists of characters (`Str`).  The Rust parser works
on `Vec<char>` slices and on `&str` byte slices; after `normalize_barcode_data`
every character is ASCII, so byte indices and character indices coincide and a
single character-list model is faithful.  Character case mapping is modelled on
the ASCII range (Rust's `to_uppercase`/`to_lowercase` agree with this on ASCII,
and all parser input is ASCII after normalization).

Rust operations that can terminate the program abnormally (slicing, indexing,
`unwrap`) are modelled by checked helpers returning `PRes`, a three-valued
result: `ok` (a value), `fail` (the Rust function executed `return None`), and
`bad` (the Rust code would have aborted on an out-of-bounds access).
-/

abbrev Str := List Char

/-- Result of running a piece of Rust code that may return `None` early
(`fail`) or hit a slicing/indexing violation (`bad`). -/
inductive PRes (α : Type) where
  | ok : α → PRes α
  | fail : PRes α
  | bad : PRes α
deriving DecidableEq, Repr

def PRes.bind {α β : Type} : PRes α → (α → PRes β) → PRes β
  | .ok a, f => f a
  | .fail, _ => .fail
  | .bad, _ => .bad

instance : Monad PRes where
  pure := PRes.ok
  bind := PRes.bind

@[simp] theorem PRes.ok_bind {α β : Type} (a : α) (f : α → PRes β) :
    (PRes.ok a >>= f) = f a := rfl

@[simp] theorem PRes.fail_bind {α β : Type} (f : α → PRes β) :
    ((PRes.fail : PRes α) >>= f) = PRes.fail := rfl

@[simp] theorem PRes.bad_bind {α β : Type} (f : α → PRes β) :
    ((PRes.bad : PRes α) >>= f) = PRes.bad := rfl

@[simp] theorem PRes.pure_eq {α : Type} (a : α) : (pure a : PRes α) = PRes.ok a := rfl

/-- Checked model of the Rust slice `l[a..b]` (for `Vec` and for ASCII `&str`). -/
def sliceB {α : Type} (l : List α) (a b : Nat) : PRes (List α) :=
  if a ≤ b ∧ b ≤ l.length then .ok ((l.drop a).take (b - a)) else .bad

/-- Checked model of the Rust slice `l[a..]`. -/
def sliceFrom {α : Type} (l : List α) (a : Nat) : PRes (List α) :=
  if a ≤ l.length then .ok (l.drop a) else .bad

/-- Checked model of the Rust index `l[i]`. -/
def nthP {α : Type} : List α → Nat → PRes α
  | [], _ => .bad
  | a :: _, 0 => .ok a
  | _ :: l, n + 1 => nthP l n

/-- Checked model of `s.chars().next().unwrap()`. -/
def headP : Str → PRes Char
  | [] => .bad
  | c :: _ => .ok c

/-- Rust `char::is_ascii`. -/
def rustIsAscii (c : Char) : Bool := c.toNat ≤ 0x7f

/-- Rust `char::is_control` (Unicode Cc category). -/
def rustIsControl (c : Char) : Bool :=
  c.toNat ≤ 0x1f || (0x7f ≤ c.toNat && c.toNat ≤ 0x9f)

/-- Rust `char::is_whitespace` (Unicode White_Space property). -/
def rustIsWhitespace (c : Char) : Bool :=
  let n := c.toNat
  (0x9 ≤ n && n ≤ 0xd) || n == 0x20 || n == 0x85 || n == 0xa0 || n == 0x1680 ||
    (0x2000 ≤ n && n ≤ 0x200a) || n == 0x2028 || n == 0x2029 || n == 0x202f ||
    n == 0x205f || n == 0x3000

/-- Model of `normalize_barcode_data`: remove newline, carriage return and tab,
then keep only ASCII characters that are not control characters (the literal
space is explicitly allowed by the source, although it is not a control
character anyway). -/
def normalize_barcode_data (raw_data : Str) : Str :=
  (raw_data.filter (fun c => !(c == '\n' || c == '\r' || c == '\t'))).filter
    (fun c => rustIsAscii c && (!rustIsControl c || c == ' '))

def splitWsAux : Str → Str → List Str
  | [], acc => if acc.isEmpty then [] else [acc.reverse]
  | c :: cs, acc =>
    if rustIsWhitespace c then
      if acc.isEmpty then splitWsAux cs [] else acc.reverse :: splitWsAux cs []
    else splitWsAux cs (c :: acc)

/-- Model of Rust `str::split_whitespace`: maximal runs of non-whitespace
characters, in order; whitespace runs separate tokens and are dropped. -/
def splitWhitespace (s : Str) : List Str := splitWsAux s []

/-- Model of Rust `str::trim`: drop leading and trailing whitespace. -/
def trimChars (s : Str) : Str :=
  ((s.dropWhile rustIsWhitespace).reverse.dropWhile rustIsWhitespace).reverse

def leadsWith : Str → Str → Bool
  | [], _ => true
  | _ :: _, [] => false
  | p :: ps, c :: cs => p == c && leadsWith ps cs

/-- Model of Rust `str::contains` for a literal pattern: `needle` occurs as a
contiguous substring of `hay`. -/
def containsStr (hay needle : Str) : Bool :=
  match hay with
  | [] => needle.isEmpty
  | _ :: tl => leadsWith needle hay || containsStr tl needle

/-- Model of `Vec::join(sep)`. -/
def joinSep (sep : Str) : List Str → Str
  | [] => []
  | [x] => x
  | x :: xs => x ++ sep ++ joinSep sep xs

/-- One word of `title_case`: first character uppercased, the rest lowercased. -/
def capitalizeWord : Str → Str
  | [] => []
  | first :: rest => Char.toUpper first :: rest.map Char.toLower

/-- Model of `title_case`: split on whitespace, capitalize each word, rejoin
with single spaces. -/
def title_case (s : Str) : Str :=
  joinSep [' '] ((splitWhitespace s).map capitalizeWord)

/-- Model of Rust `str::split(sep)` for a single-character separator: all
pieces between separator occurrences, empty pieces kept. -/
def splitOnChar (sep : Char) : Str → List Str
  | [] => [[]]
  | c :: cs =>
    if c = sep then [] :: splitOnChar sep cs
    else
      match splitOnChar sep cs with
      | [] => [[c]]
      | t :: ts => (c :: t) :: ts

/-- The constant title set of `format_passenger_name`. -/
def titlesList : List Str :=
  [['M', 'R'], ['M', 'S'], ['M', 'R', 'S'], ['M', 'I', 'S', 'S'],
   ['D', 'R'], ['P', 'R', 'O', 'F']]

/-- The two-part branch of `format_passenger_name` (taken when splitting on
every slash produced exactly two parts): extract an optional trailing title
from the first-name side and emit `Title Firstname Lastname`. -/
def format_two_part (p0 p1 : Str) : Str :=
  let lastname := trimChars p0
  let firstname_with_title := trimChars p1
  let tokens := splitWhitespace firstname_with_title
  let fnt : Str × Option Str :=
    if 1 < tokens.length then
      let last_token := (tokens.getD (tokens.length - 1) []).map Char.toUpper
      if last_token ∈ titlesList then
        (joinSep [' '] (tokens.take (tokens.length - 1)), some last_token)
      else (firstname_with_title, none)
    else (firstname_with_title, none)
  let formatted_firstname := title_case fnt.1
  let formatted_lastname := title_case lastname
  match fnt.2 with
  | some t => title_case t ++ [' '] ++ formatted_firstname ++ [' '] ++ formatted_lastname
  | none => formatted_firstname ++ [' '] ++ formatted_lastname

/-- Model of `format_passenger_name`: split on `'/'`; with exactly two parts
reorder to `Title Firstname Lastname`, otherwise return the title-cased input
unchanged. -/
def format_passenger_name (raw_name : Str) : Str :=
  match splitOnChar '/' raw_name with
  | [p0, p1] => format_two_part p0 p1
  | _ => title_case raw_name

/-- The record produced by a successful parse (`PDF417Data` in the source). -/
structure PDF417Data where
  passenger_name : Str
  e_ticket_indicator : Str
  booking_code : Str
  origin : Str
  destination : Str
  airline_code : Str
  flight_number : Str
  flight_date_julian : Str
  cabin_class : Str
  seat_number : Str
  sequence_number : Str
  infant_status : Bool
  conditional_data : Option Str
deriving DecidableEq, Repr

/-- The valid single-letter e-ticket indicators of Strategy A. -/
def validEticketIndicators : List Char := ['E', 'M', 'Z', 'T', 'B']

/-- Token-0 processing of Strategy A: result is
`(e_ticket_indicator, booking_code, token_offset)`.  A one-character token 0,
when at least five tokens are present and the letter (uppercased) is a valid
indicator, is merged with token 1 and all later indices shift by one;
otherwise token 0 is split into its first character and the remainder.
`headP` models the `unwrap` on the first character of the one-character
token. -/
def eTicketSplit (tokens : List Str) : PRes (Str × Str × Nat) := do
  let t0 ← nthP tokens 0
  if t0.length = 1 ∧ 5 ≤ tokens.length then do
    let c0 ← headP t0
    let first_char := Char.toUpper c0
    if first_char ∈ validEticketIndicators then
      let merged := t0 ++ tokens.getD 1 []
      let e_ticket : Str := [merged.headD ' ']
      let booking : Str := if 1 < merged.length then merged.drop 1 else []
      pure (e_ticket, booking, 1)
    else
      pure ([t0.headD ' '], if 1 < t0.length then t0.drop 1 else [], 0)
  else
    pure ([t0.headD ' '], if 1 < t0.length then t0.drop 1 else [], 0)

/-- The infant-seat rule shared verbatim by both strategies: a raw seat field
containing `INF` marks an infant and clears the seat number. -/
def infant_seat (seat_number_raw : Str) : Bool × Str :=
  let infant_status := containsStr seat_number_raw ['I', 'N', 'F']
  (infant_status, if infant_status then [] else seat_number_raw)

/-- The raw-seat computation of Strategy A: characters 4 to 8 of the
composite token, trimmed, empty when the token is shorter than 8. -/
def seat_raw_token (token3 : Str) : PRes Str :=
  if 8 ≤ token3.length then do
    let s ← sliceB token3 4 8
    pure (trimChars s)
  else pure []

/-- The sequence-number computation of Strategy A: characters 8 to 12 of the
composite token, trimmed, empty when the token is shorter than 12. -/
def sequence_token (token3 : Str) : PRes Str :=
  if 12 ≤ token3.length then do
    let s ← sliceB token3 8 12
    pure (trimChars s)
  else pure []

/-- The conditional-data computation of Strategy A: every token from `idx` on
joined with single spaces, none when there is no such token. -/
def conditional_tokens (tokens : List Str) (idx : Nat) : PRes (Option Str) :=
  if idx < tokens.length then do
    let rest ← sliceFrom tokens idx
    pure (some (joinSep [' '] rest))
  else pure none

/-- Field extraction of Strategy A after token 0 has been processed: reads the
route token at index `1 + token_offset`, the flight number at
`2 + token_offset`, the composite date/class/seat/sequence token at
`3 + token_offset`, and joins every later token into the conditional data. -/
def sdTail ( passenger_name e_ticket_indicator booking_code : Str)
    (tokens : List Str) (token_offset : Nat) : PRes PDF417Data := do
  let origin_dest_airline_idx := 1 + token_offset
  let flight_number_idx := 2 + token_offset
  let date_class_seat_idx := 3 + token_offset
  if tokens.length ≤ date_class_seat_idx then .fail
  else do
    let token1 ← nthP tokens origin_dest_airline_idx
    if token1.length < 8 then .fail
    else do
      let origin ← sliceB token1 0 3
      let destination ← sliceB token1 3 6
      let airline_code ← sliceB token1 6 8
      let flight_number ← nthP tokens flight_number_idx
      let token3 ← nthP tokens date_class_seat_idx
      if 3 ≤ token3.length then do
        let flight_date_julian ← sliceB token3 0 3
        let cabin_class : Str := if 4 ≤ token3.length then [token3.getD 3 'Y'] else ['Y']
        let seat_number_raw ← seat_raw_token token3
        let sequence_number ← sequence_token token3
        let infSeat := infant_seat seat_number_raw
        let conditional_data ← conditional_tokens tokens (date_class_seat_idx + 1)
        pure { passenger_name := format_passenger_name passenger_name,
               e_ticket_indicator := e_ticket_indicator,
               booking_code := booking_code,
               origin := origin,
               destination := destination,
               airline_code := airline_code,
               flight_number := flight_number,
               flight_date_julian := flight_date_julian,
               cabin_class := cabin_class,
               seat_number := infSeat.2,
               sequence_number := sequence_number,
               infant_status := infSeat.1,
               conditional_data := conditional_data }
      else .fail

/-- Strategy A from the token list on: fail with fewer than four tokens, then
process token 0 and extract the remaining fields. -/
def space_delimited_fields ( passenger_name : Str) (tokens : List Str) :
    PRes PDF417Data :=
  if tokens.length < 4 then .fail
  else do
    let ebo ← eTicketSplit tokens
    sdTail passenger_name ebo.1 ebo.2.1 tokens ebo.2.2

/-- Model of `try_parse_space_delimited`: fixed-position passenger name at
`[2, 22)`, then whitespace-tokenized remainder from position 22 on. -/
def try_parse_space_delimited (chars : Str) : PRes PDF417Data := do
  let passenger_name_raw ← sliceB chars 2 22
  let passenger_name := trimChars passenger_name_raw
  if 22 < chars.length then do
    let remainder ← sliceFrom chars 22
    space_delimited_fields passenger_name (splitWhitespace remainder)
  else .fail

/-- The raw-seat computation of Strategy B: positions 46 to 50, trimmed,
guarded (as in the source) by a length check that the earlier minimum-length
guard already implies. -/
def strict_seat_raw (chars : Str) : PRes Str :=
  if 50 ≤ chars.length then do
    let s ← sliceB chars 46 50
    pure (trimChars s)
  else pure []

/-- The sequence-number computation of Strategy B: positions 50 to 54,
trimmed, guarded (as in the source) by a length check that the earlier
minimum-length guard already implies. -/
def strict_sequence (chars : Str) : PRes Str :=
  if 54 ≤ chars.length then do
    let s ← sliceB chars 50 54
    pure (trimChars s)
  else pure []

/-- The conditional-data computation of Strategy B: everything from position
55 on, trimmed, none when the sequence is not longer than 55. -/
def strict_conditional (chars : Str) : PRes (Option Str) :=
  if 55 < chars.length then do
    let rest ← sliceFrom chars 55
    pure (some (trimChars rest))
  else pure none

/-- Model of `try_parse_strict_iata`: fixed-offset extraction, guarded by a
minimum length of 55 and at most five spaces in the whole sequence. -/
def try_parse_strict_iata (chars : Str) : PRes PDF417Data := do
  if chars.length < 55 then .fail
  else do
    let space_count := (chars.filter (fun c => c == ' ')).length
    if 5 < space_count then .fail
    else do
      let passenger_name_raw ← sliceB chars 2 22
      let passenger_name := trimChars passenger_name_raw
      let e22 ← nthP chars 22
      let bc ← sliceB chars 23 29
      let origin ← sliceB chars 29 32
      let destination ← sliceB chars 32 35
      let airline_code ← sliceB chars 35 37
      let fn ← sliceB chars 37 42
      let flight_date_julian ← sliceB chars 42 45
      let c45 ← nthP chars 45
      let seat_number_raw ← strict_seat_raw chars
      let sequence_number ← strict_sequence chars
      let infSeat := infant_seat seat_number_raw
      let conditional_data ← strict_conditional chars
      pure { passenger_name := format_passenger_name passenger_name,
             e_ticket_indicator := [e22],
             booking_code := trimChars bc,
             origin := origin,
             destination := destination,
             airline_code := airline_code,
             flight_number := trimChars fn,
             flight_date_julian := flight_date_julian,
             cabin_class := [c45],
             seat_number := infSeat.2,
             sequence_number := sequence_number,
             infant_status := infSeat.1,
             conditional_data := conditional_data }

/-- Model of `parse_iata_bcbp`: normalize, require at least 50 characters and
a leading `M`, then try Strategy A and fall back to Strategy B.  The source
checks the length twice (once on the byte length of the normalized string and
once on the collected character vector); the normalized output is ASCII-only,
so both coincide and the model repeats the identical check. -/
def parse_iata_bcbp (barcode : Str) : PRes PDF417Data :=
  let normalized := normalize_barcode_data barcode
  if normalized.length < 50 then .fail
  else
    let chars := normalized
    if chars.length < 50 then .fail
    else
      match nthP chars 0 with
      | .ok c0 =>
        if c0 ≠ 'M' then .fail
        else
          match try_parse_space_delimited chars with
          | .ok data => .ok data
          | .fail =>
            match try_parse_strict_iata chars with
            | .ok data => .ok data
            | .fail => .fail
            | .bad => .bad
          | .bad => .bad
      | .fail => .fail
      | .bad => .bad

/-- Projection of a `PRes` to an `Option`, forgetting the abnormal case. -/
def PRes.toOpt {α : Type} : PRes α → Option α
  | .ok a => some a
  | _ => none

/-- The Garuda-style end-to-end input of the specification. -/
def garudaInput : Str :=
  ("M1PRASETYO/YUDHA DWI  EE6UVIL CGKSUBGA 0312 260Y045C0120 348>5180  5259B1A              2A12621429493830 GA                        N").data

/-- The infant-ticket end-to-end input of the specification. -/
def infantInput : Str :=
  ("M1MAYZURA/AUFARIZA HANEBJQUJW CGKUPGID 6296 147Y0INF0097 100").data

/-- The record the parser produces for `infantInput` (used as a concrete
successful parse in witnesses). -/
def infantRecord : PDF417Data :=
  { passenger_name := ("Aufariza Han Mayzura").data,
    e_ticket_indicator := ("E").data,
    booking_code := ("BJQUJW").data,
    origin := ("CGK").data,
    destination := ("UPG").data,
    airline_code := ("ID").data,
    flight_number := ("6296").data,
    flight_date_julian := ("147").data,
    cabin_class := ("Y").data,
    seat_number := [],
    sequence_number := ("0097").data,
    infant_status := true,
    conditional_data := some (("100").data) }

/-- The name-splitting behavior described by the specification's words: a
name containing a slash is split at the FIRST slash into lastname and
firstname_with_title.  This follows the spec and is compared against the
source's `format_passenger_name`, which splits at every slash and reorders
only when exactly two parts result. -/
def format_passenger_name_firstSlash (raw_name : Str) : Str :=
  if '/' ∈ raw_name then
    format_two_part (raw_name.takeWhile (fun c => ¬c = '/'))
      ((raw_name.dropWhile (fun c => ¬c = '/')).drop 1)
  else title_case raw_name

theorem sliceB_pos {α : Type} {l : List α} {a b : Nat} (h1 : a ≤ b)
    (h2 : b ≤ l.length) : sliceB l a b = .ok ((l.drop a).take (b - a)) := by
  unfold sliceB
  rw [if_pos ⟨h1, h2⟩]

theorem sliceB_ok_length {α : Type} {l s : List α} {a b : Nat}
    (h : sliceB l a b = .ok s) : s.length = b - a := by
  unfold sliceB at h
  split at h
  · rename_i hc
    injection h with h
    subst h
    simp only [List.length_take, List.length_drop]
    omega
  · cases h

theorem sliceFrom_pos {α : Type} {l : List α} {a : Nat} (h : a ≤ l.length) :
    sliceFrom l a = .ok (l.drop a) := by
  unfold sliceFrom
  rw [if_pos h]

theorem nthP_eq_get {α : Type} (l : List α) (i : Nat) :
    nthP l i = match l.get? i with | some x => .ok x | none => .bad := by
  induction l generalizing i with
  | nil => cases i <;> rfl
  | cons a t ih => cases i with
    | zero => rfl
    | succ n => simpa [nthP] using ih n

theorem nthP_ok_of_lt {α : Type} {l : List α} {i : Nat} (h : i < l.length) :
    ∃ x, nthP l i = .ok x ∧ l.get? i = some x := by
  rcases List.get?_eq_get h with hg
  exact ⟨l.get ⟨i, h⟩, by rw [nthP_eq_get, hg], hg⟩

/-- C9: normalize_barcode_data is idempotent: normalizing an
already-normalized string returns the same string. -/
theorem C9_normalize_idempotent (s : Str) :
    normalize_barcode_data (normalize_barcode_data s) = normalize_barcode_data s := by
  unfold normalize_barcode_data
  simp only [List.filter_filter]
  apply List.filter_congr
  intro c _
  cases h1 : (rustIsAscii c && (!rustIsControl c || c == ' ')) <;>
    cases h2 : (!(c == '\n' || c == '\r' || c == '\t')) <;> simp [h1, h2]

/-- C5: the dispatcher rejects every input whose normalized form is shorter
than 50 characters, and every input whose normalized form does not start with
the character M, without reaching either strategy. -/
theorem C5_dispatcher_guards (s : Str) :
    ((normalize_barcode_data s).length < 50 → parse_iata_bcbp s = .fail) ∧
    ((normalize_barcode_data s).head? ≠ some 'M' → parse_iata_bcbp s = .fail) := by
  constructor
  · intro h
    unfold parse_iata_bcbp
    rw [if_pos h]
  · intro h
    unfold parse_iata_bcbp
    by_cases hlen : (normalize_barcode_data s).length < 50
    · rw [if_pos hlen]
    · rw [if_neg hlen, if_neg hlen]
      rcases hn : normalize_barcode_data s with _ | ⟨c0, rest⟩
      · rw [hn] at hlen
        simp at hlen
      · rw [hn] at h
        simp only [List.head?] at h
        have hc0 : c0 ≠ 'M' := fun he => h (by rw [he])
        simp [hn, nthP, hc0]

theorem C5_dispatcher_guards_witness :
    parse_iata_bcbp ['A'] = .fail ∧
      parse_iata_bcbp (List.replicate 60 'X') = .fail :=
  ⟨(C5_dispatcher_guards ['A']).1 (by decide),
   (C5_dispatcher_guards (List.replicate 60 'X')).2 (by decide)⟩

set_option maxRecDepth 40000 in
/-- C2: the two end-to-end scenarios: the Garuda-style input yields airline
GA, julian date 260, no infant, seat 045C; the infant-ticket input yields
airline ID, booking code BJQUJW, empty seat, sequence 0097, infant status
true. -/
theorem C2_end_to_end_scenarios :
    (parse_iata_bcbp garudaInput).toOpt.map
        (fun r => (r.airline_code, r.flight_date_julian, r.infant_status, r.seat_number)) =
      some (("GA").data, ("260").data, false, ("045C").data) ∧
    (parse_iata_bcbp infantInput).toOpt.map
        (fun r => (r.airline_code, r.booking_code, r.seat_number, r.sequence_number,
          r.infant_status)) =
      some (("ID").data, ("BJQUJW").data, ([] : Str), ("0097").data, true) := by
  constructor <;> decide

theorem splitOnChar_not_mem {sep : Char} {l : Str} (h : sep ∉ l) :
    splitOnChar sep l = [l] := by
  induction l with
  | nil => rfl
  | cons c cs ih =>
    have hc : ¬c = sep := fun he => h (he ▸ List.mem_cons_self c cs)
    have hcs : sep ∉ cs := fun hm => h (List.mem_cons_of_mem c hm)
    simp only [splitOnChar, if_neg hc, ih hcs]

theorem splitOnChar_append {sep : Char} {l : Str} (f : Str) (h : sep ∉ l) :
    splitOnChar sep (l ++ sep :: f) = l :: splitOnChar sep f := by
  induction l with
  | nil => simp [splitOnChar]
  | cons c cs ih =>
    have hc : ¬c = sep := fun he => h (he ▸ List.mem_cons_self c cs)
    have hcs : sep ∉ cs := fun hm => h (List.mem_cons_of_mem c hm)
    simp only [List.cons_append, splitOnChar, if_neg hc, List.append_eq, ih hcs]

theorem splitOnChar_ne_nil (sep : Char) (l : Str) : splitOnChar sep l ≠ [] := by
  cases l with
  | nil => simp [splitOnChar]
  | cons c cs =>
    simp only [splitOnChar]
    split
    · simp
    · rcases hs : splitOnChar sep cs with _ | ⟨t, ts⟩ <;> simp

theorem splitOnChar_length (sep : Char) (l : Str) :
    (splitOnChar sep l).length = l.count sep + 1 := by
  induction l with
  | nil => rfl
  | cons c cs ih =>
    by_cases hc : c = sep
    · subst hc
      simp [splitOnChar, List.count_cons, ih]
    · rcases hs : splitOnChar sep cs with _ | ⟨t, ts⟩
      · exact absurd hs (splitOnChar_ne_nil sep cs)
      · rw [hs] at ih
        simp only [splitOnChar, if_neg hc, hs]
        simp only [List.length_cons] at ih ⊢
        rw [List.count_cons_of_ne (fun he => hc he.symm)]
        omega

theorem format_passenger_name_not_two_parts {raw : Str}
    (h : (splitOnChar '/' raw).length ≠ 2) :
    format_passenger_name raw = title_case raw := by
  unfold format_passenger_name
  rcases hs : splitOnChar '/' raw with _ | ⟨a, _ | ⟨b, _ | ⟨d, t⟩⟩⟩
  · rfl
  · rfl
  · rw [hs] at h
    simp at h
  · rfl

/-- C3 (amended): a name without a slash is returned title-cased unchanged;
the split-and-reorder behavior applies exactly when the name contains exactly
one slash; a name with two or more slashes is also returned title-cased
unchanged, not split at its first slash. -/
theorem C3_amended_name_split (raw l f : Str) :
    ('/' ∉ raw → format_passenger_name raw = title_case raw) ∧
    ('/' ∉ l → '/' ∉ f →
      format_passenger_name (l ++ '/' :: f) = format_two_part l f) ∧
    (raw.count '/' ≠ 1 → format_passenger_name raw = title_case raw) := by
  refine ⟨fun h => ?_, fun hl hf => ?_, fun h => ?_⟩
  · unfold format_passenger_name
    rw [splitOnChar_not_mem h]
  · unfold format_passenger_name
    rw [splitOnChar_append f hl, splitOnChar_not_mem hf]
  · exact format_passenger_name_not_two_parts (by rw [splitOnChar_length]; omega)

/-- C3 counterexample: the claim says every name with at least one slash is
split at the first slash and reordered; on the two-slash input A/B/C the code
instead title-cases the whole string, while the claimed first-slash split
would produce B/c A. -/
theorem C3_counterexample :
    format_passenger_name (("A/B/C").data) = ("A/b/c").data ∧
    format_passenger_name_firstSlash (("A/B/C").data) = ("B/c A").data ∧
    format_passenger_name (("A/B/C").data) ≠
      format_passenger_name_firstSlash (("A/B/C").data) :=
  ⟨by decide, by decide, by decide⟩

theorem C3_amended_name_split_witness :
    format_passenger_name (("JOHN SMITH").data) = title_case (("JOHN SMITH").data) ∧
    format_passenger_name (("SMITH").data ++ '/' :: ("JOHN").data) =
      format_two_part (("SMITH").data) (("JOHN").data) ∧
    format_passenger_name (("A/B/C").data) = title_case (("A/B/C").data) :=
  ⟨(C3_amended_name_split (("JOHN SMITH").data) [] []).1 (by decide),
   (C3_amended_name_split [] (("SMITH").data) (("JOHN").data)).2.1 (by decide) (by decide),
   (C3_amended_name_split (("A/B/C").data) [] []).2.2 (by decide)⟩

theorem format_two_part_cases ( p0 p1 : Str) (toks : List Str)
    (htoks : toks = splitWhitespace (trimChars p1)) :
    (1 < toks.length →
      (toks.getD (toks.length - 1) []).map Char.toUpper ∈ titlesList →
      format_two_part p0 p1 =
        title_case ((toks.getD (toks.length - 1) []).map Char.toUpper) ++ [' '] ++
          title_case (joinSep [' '] (toks.take (toks.length - 1))) ++ [' '] ++
          title_case (trimChars p0)) ∧
    (¬(1 < toks.length ∧
        (toks.getD (toks.length - 1) []).map Char.toUpper ∈ titlesList) →
      format_two_part p0 p1 =
        title_case (trimChars p1) ++ [' '] ++ title_case (trimChars p0)) := by
  subst htoks
  constructor
  · intro h1 h2
    unfold format_two_part
    simp only [if_pos h1, if_pos h2]
  · intro h
    unfold format_two_part
    by_cases h1 : 1 < (splitWhitespace (trimChars p1)).length
    · have h2 : ¬((splitWhitespace (trimChars p1)).getD
          ((splitWhitespace (trimChars p1)).length - 1) []).map Char.toUpper ∈ titlesList :=
        fun hm => h ⟨h1, hm⟩
      simp only [if_pos h1, if_neg h2]
    · simp only [if_neg h1]

/-- C7: the four specification examples of name formatting, and the general
rule: with more than one whitespace token on the first-name side whose last
token uppercased is a known title, the output is Title Firstname Lastname,
otherwise Firstname Lastname, each segment title-cased. -/
theorem C7_name_formatting :
    format_passenger_name (("PUTRI/SITI MS").data) = ("Ms Siti Putri").data ∧
    format_passenger_name (("BAYU/MUHAMMAD MR").data) = ("Mr Muhammad Bayu").data ∧
    format_passenger_name (("ABU TALIB/SUZANA MS").data) = ("Ms Suzana Abu Talib").data ∧
    format_passenger_name (("SMITH/JOHN").data) = ("John Smith").data ∧
    (∀ ( p0 p1 : Str) (toks : List Str), toks = splitWhitespace (trimChars p1) →
      (1 < toks.length →
        (toks.getD (toks.length - 1) []).map Char.toUpper ∈ titlesList →
        format_two_part p0 p1 =
          title_case ((toks.getD (toks.length - 1) []).map Char.toUpper) ++ [' '] ++
            title_case (joinSep [' '] (toks.take (toks.length - 1))) ++ [' '] ++
            title_case (trimChars p0)) ∧
      (¬(1 < toks.length ∧
          (toks.getD (toks.length - 1) []).map Char.toUpper ∈ titlesList) →
        format_two_part p0 p1 =
          title_case (trimChars p1) ++ [' '] ++ title_case (trimChars p0))) :=
  ⟨by decide, by decide, by decide, by decide, format_two_part_cases⟩

theorem C7_name_formatting_witness :
    format_two_part (("PUTRI").data) (("SITI MS").data) = ("Ms Siti Putri").data ∧
    format_two_part (("SMITH").data) (("JOHN").data) = ("John Smith").data :=
  ⟨((C7_name_formatting.2.2.2.2 (("PUTRI").data) (("SITI MS").data) _ rfl).1
      (by decide) (by decide)).trans (by decide),
   ((C7_name_formatting.2.2.2.2 (("SMITH").data) (("JOHN").data) _ rfl).2
      (by decide)).trans (by decide)⟩

theorem eTicketSplit_merge {c : Char} {t1 : Str} {rest : List Str}
    (hvalid : Char.toUpper c ∈ validEticketIndicators) (ht1 : t1 ≠ [])
    (hlen : 3 ≤ rest.length) :
    eTicketSplit ([c] :: t1 :: rest) = .ok ([c], t1, 1) := by
  unfold eTicketSplit
  have hcond : ([c] : Str).length = 1 ∧ 5 ≤ ([c] :: t1 :: rest).length := by
    simp
    omega
  rw [show nthP ([c] :: t1 :: rest) 0 = .ok [c] from rfl]
  simp only [PRes.ok_bind, if_pos hcond, headP, PRes.ok_bind, if_pos hvalid]
  have hm : 1 < ([c] ++ ([c] :: t1 :: rest).getD 1 []).length := by
    simp [List.getD]
    cases t1 with
    | nil => exact absurd rfl ht1
    | cons a b => simp
  simp [List.getD, if_pos hm]

theorem eTicketSplit_nomerge {c : Char} {t1 : Str} {rest : List Str}
    (hvalid : Char.toUpper c ∉ validEticketIndicators) :
    eTicketSplit ([c] :: t1 :: rest) = .ok ([c], [], 0) := by
  unfold eTicketSplit
  rw [show nthP ([c] :: t1 :: rest) 0 = .ok [c] from rfl]
  by_cases hcond : ([c] : Str).length = 1 ∧ 5 ≤ ([c] :: t1 :: rest).length
  · simp only [PRes.ok_bind, if_pos hcond, headP, PRes.ok_bind, if_neg hvalid]
    simp
  · simp only [PRes.ok_bind, if_neg hcond]
    simp

theorem eTicketSplit_short {c : Char} {t1 : Str} {rest : List Str}
    (hlen : ([c] :: t1 :: rest).length < 5) :
    eTicketSplit ([c] :: t1 :: rest) = .ok ([c], [], 0) := by
  unfold eTicketSplit
  rw [show nthP ([c] :: t1 :: rest) 0 = .ok [c] from rfl]
  have hcond : ¬(([c] : Str).length = 1 ∧ 5 ≤ ([c] :: t1 :: rest).length) := by
    intro hx
    omega
  simp only [PRes.ok_bind, if_neg hcond]
  simp

theorem eTicketSplit_merged_list {c : Char} {t1 : Str} (rest : List Str)
    (ht1 : t1 ≠ []) :
    eTicketSplit ((c :: t1) :: rest) = .ok ([c], t1, 0) := by
  unfold eTicketSplit
  rw [show nthP ((c :: t1) :: rest) 0 = .ok (c :: t1) from rfl]
  have hcond : ¬((c :: t1).length = 1 ∧ 5 ≤ ((c :: t1) :: rest).length) := by
    intro hx
    cases t1 with
    | nil => exact ht1 rfl
    | cons a b => simp at hx
  have h1 : 1 < (c :: t1).length := by
    cases t1 with
    | nil => exact absurd rfl ht1
    | cons a b => simp
  simp only [PRes.ok_bind, if_neg hcond]
  simp [if_pos h1]

theorem sliceFrom_shift {α : Type} (a0 a1 b0 : List α) (rest : List (List α)) :
    sliceFrom (a0 :: a1 :: rest) (3 + 1 + 1) = sliceFrom (b0 :: rest) (3 + 0 + 1) := by
  unfold sliceFrom
  refine if_congr (by simp only [List.length_cons]; omega) ?_ rfl
  rfl

theorem conditional_tokens_shift (a0 a1 b0 : Str) (rest : List Str) :
    conditional_tokens (a0 :: a1 :: rest) (3 + 1 + 1) =
      conditional_tokens (b0 :: rest) (3 + 0 + 1) := by
  unfold conditional_tokens
  refine if_congr (by simp only [List.length_cons]; omega) ?_ rfl
  rw [sliceFrom_shift a0 a1 b0 rest]

theorem sdTail_shift ( pn e b : Str) (a0 a1 b0 : Str) (rest : List Str) :
    sdTail pn e b (a0 :: a1 :: rest) 1 = sdTail pn e b (b0 :: rest) 0 := by
  unfold sdTail
  simp only
    [show ((a0 :: a1 :: rest).length ≤ 3 + 1) = ((b0 :: rest).length ≤ 3 + 0) from
       propext (by simp only [List.length_cons]; omega),
     show nthP (a0 :: a1 :: rest) (1 + 1) = nthP rest 0 from rfl,
     show nthP (b0 :: rest) (1 + 0) = nthP rest 0 from rfl,
     show nthP (a0 :: a1 :: rest) (2 + 1) = nthP rest 1 from rfl,
     show nthP (b0 :: rest) (2 + 0) = nthP rest 1 from rfl,
     show nthP (a0 :: a1 :: rest) (3 + 1) = nthP rest 2 from rfl,
     show nthP (b0 :: rest) (3 + 0) = nthP rest 2 from rfl,
     conditional_tokens_shift a0 a1 b0 rest]

theorem sdf_merge_eq ( pn : Str) (c : Char) (t1 : Str) (rest : List Str)
    (hvalid : Char.toUpper c ∈ validEticketIndicators) (ht1 : t1 ≠ [])
    (hlen : 3 ≤ rest.length) :
    space_delimited_fields pn ([c] :: t1 :: rest) =
      space_delimited_fields pn ((c :: t1) :: rest) := by
  unfold space_delimited_fields
  rw [if_neg (by simp only [List.length_cons]; omega),
      if_neg (by simp only [List.length_cons]; omega),
      eTicketSplit_merge hvalid ht1 hlen, eTicketSplit_merged_list rest ht1]
  simp only [PRes.ok_bind]
  exact sdTail_shift pn [c] t1 [c] t1 (c :: t1) rest

/-- C1: token-0 disambiguation of Strategy A.  When token 0 is a single
character, at least five tokens are present, and the character uppercased is
a valid e-ticket indicator, token 0 is concatenated with token 1: the
indicator is the first character of the concatenation, the booking code is
the rest, the offset becomes 1, and the whole extraction equals extraction
from the token list with the two tokens merged (all later fields read one
index later).  When the single character is not a valid indicator, or fewer
than five tokens are present, no merge happens: the indicator is that
character, the booking code is empty, and the offset stays 0. -/
theorem C1_token0_disambiguation ( pn : Str) (c : Char) (t1 : Str) (rest : List Str) :
    (Char.toUpper c ∈ validEticketIndicators → t1 ≠ [] → 3 ≤ rest.length →
      eTicketSplit ([c] :: t1 :: rest) = .ok ([c], t1, 1) ∧
      space_delimited_fields pn ([c] :: t1 :: rest) =
        space_delimited_fields pn ((c :: t1) :: rest)) ∧
    (Char.toUpper c ∉ validEticketIndicators →
      eTicketSplit ([c] :: t1 :: rest) = .ok ([c], [], 0)) ∧
    (([c] :: t1 :: rest).length < 5 →
      eTicketSplit ([c] :: t1 :: rest) = .ok ([c], [], 0)) :=
  ⟨fun hv ht hl => ⟨eTicketSplit_merge hv ht hl, sdf_merge_eq pn c t1 rest hv ht hl⟩,
   fun hv => eTicketSplit_nomerge hv,
   fun hl => eTicketSplit_short hl⟩

theorem C1_token0_disambiguation_witness :
    (eTicketSplit (['E'] :: ("FGH345").data ::
        [("CGKBDOQG").data, ("1630").data, ("284Y029A0045").data]) =
      .ok (['E'], ("FGH345").data, 1)) ∧
    (space_delimited_fields [] (['E'] :: ("FGH345").data ::
        [("CGKBDOQG").data, ("1630").data, ("284Y029A0045").data]) =
      space_delimited_fields [] (('E' :: ("FGH345").data) ::
        [("CGKBDOQG").data, ("1630").data, ("284Y029A0045").data])) ∧
    (eTicketSplit (['G'] :: ("HIJ567").data ::
        [("CGKBDOQG").data, ("1630").data, ("284Y029A0045").data]) =
      .ok (['G'], [], 0)) ∧
    (eTicketSplit (['E'] :: ("FGH345").data :: [("CGKBDOQG").data]) =
      .ok (['E'], [], 0)) :=
  ⟨((C1_token0_disambiguation [] 'E' (("FGH345").data)
      [("CGKBDOQG").data, ("1630").data, ("284Y029A0045").data]).1
      (by decide) (by decide) (by decide)).1,
   ((C1_token0_disambiguation [] 'E' (("FGH345").data)
      [("CGKBDOQG").data, ("1630").data, ("284Y029A0045").data]).1
      (by decide) (by decide) (by decide)).2,
   (C1_token0_disambiguation [] 'G' (("HIJ567").data)
      [("CGKBDOQG").data, ("1630").data, ("284Y029A0045").data]).2.1 (by decide),
   (C1_token0_disambiguation [] 'E' (("FGH345").data) [("CGKBDOQG").data]).2.2
      (by decide)⟩

theorem seat_raw_token_ok (token3 : Str) : ∃ s, seat_raw_token token3 = .ok s := by
  unfold seat_raw_token
  split
  · rename_i h
    exact ⟨trimChars ((token3.drop 4).take (8 - 4)),
      by rw [sliceB_pos (by omega) (by omega)]; rfl⟩
  · exact ⟨[], rfl⟩

theorem sequence_token_ok (token3 : Str) : ∃ s, sequence_token token3 = .ok s := by
  unfold sequence_token
  split
  · rename_i h
    exact ⟨trimChars ((token3.drop 8).take (12 - 8)),
      by rw [sliceB_pos (by omega) (by omega)]; rfl⟩
  · exact ⟨[], rfl⟩

theorem conditional_tokens_ok (tokens : List Str) (idx : Nat) :
    ∃ v, conditional_tokens tokens idx = .ok v := by
  unfold conditional_tokens
  split
  · rename_i h
    exact ⟨some (joinSep [' '] (tokens.drop idx)), by rw [sliceFrom_pos (by omega)]; rfl⟩
  · exact ⟨none, rfl⟩

theorem strict_seat_raw_ok (chars : Str) : ∃ s, strict_seat_raw chars = .ok s := by
  unfold strict_seat_raw
  split
  · rename_i h
    exact ⟨trimChars ((chars.drop 46).take (50 - 46)),
      by rw [sliceB_pos (by omega) (by omega)]; rfl⟩
  · exact ⟨[], rfl⟩

theorem strict_sequence_ok (chars : Str) : ∃ s, strict_sequence chars = .ok s := by
  unfold strict_sequence
  split
  · rename_i h
    exact ⟨trimChars ((chars.drop 50).take (54 - 50)),
      by rw [sliceB_pos (by omega) (by omega)]; rfl⟩
  · exact ⟨[], rfl⟩

theorem strict_conditional_ok (chars : Str) :
    ∃ v, strict_conditional chars = .ok v := by
  unfold strict_conditional
  split
  · rename_i h
    exact ⟨some (trimChars (chars.drop 55)), by rw [sliceFrom_pos (by omega)]; rfl⟩
  · exact ⟨none, rfl⟩

theorem sliceFrom_ok_inv {α : Type} {l : List α} {a : Nat} {v : List α}
    (h : sliceFrom l a = .ok v) : v = l.drop a := by
  unfold sliceFrom at h
  split at h
  · injection h with h
    exact h.symm
  · exact PRes.noConfusion h

theorem seat_raw_token_eq (token3 : Str) :
    seat_raw_token token3 =
      .ok (if 8 ≤ token3.length then trimChars ((token3.drop 4).take (8 - 4))
           else []) := by
  unfold seat_raw_token
  split
  · rename_i h
    rw [sliceB_pos (by omega) (by omega)]
    rfl
  · rfl

theorem strict_seat_raw_eq (chars : Str) :
    strict_seat_raw chars =
      .ok (if 50 ≤ chars.length then trimChars ((chars.drop 46).take (50 - 46))
           else []) := by
  unfold strict_seat_raw
  split
  · rename_i h
    rw [sliceB_pos (by omega) (by omega)]
    rfl
  · rfl

theorem sdTail_ok_inv {pn e b : Str} {tokens : List Str} {off : Nat}
    {r : PDF417Data} (h : sdTail pn e b tokens off = .ok r) :
    r.origin.length = 3 ∧ r.destination.length = 3 ∧ r.airline_code.length = 2 ∧
      ∃ token3 seat_raw,
        nthP tokens (3 + off) = .ok token3 ∧
        seat_raw = (if 8 ≤ token3.length then trimChars ((token3.drop 4).take (8 - 4))
                    else []) ∧
        r.infant_status = (infant_seat seat_raw).1 ∧
        r.seat_number = (infant_seat seat_raw).2 := by
  unfold sdTail at h
  simp only [] at h
  split at h
  · exact PRes.noConfusion h
  · cases h1 : nthP tokens (1 + off) <;> rw [h1] at h <;>
      simp only [PRes.ok_bind, PRes.fail_bind, PRes.bad_bind] at h <;>
      try exact PRes.noConfusion h
    rename_i token1
    split at h
    · exact PRes.noConfusion h
    · cases h2 : sliceB token1 0 3 <;> rw [h2] at h <;>
        simp only [PRes.ok_bind, PRes.fail_bind, PRes.bad_bind] at h <;>
        try exact PRes.noConfusion h
      rename_i origin
      cases h3 : sliceB token1 3 6 <;> rw [h3] at h <;>
        simp only [PRes.ok_bind, PRes.fail_bind, PRes.bad_bind] at h <;>
        try exact PRes.noConfusion h
      rename_i dest
      cases h4 : sliceB token1 6 8 <;> rw [h4] at h <;>
        simp only [PRes.ok_bind, PRes.fail_bind, PRes.bad_bind] at h <;>
        try exact PRes.noConfusion h
      rename_i airline
      cases h5 : nthP tokens (2 + off) <;> rw [h5] at h <;>
        simp only [PRes.ok_bind, PRes.fail_bind, PRes.bad_bind] at h <;>
        try exact PRes.noConfusion h
      rename_i fnum
      cases h6 : nthP tokens (3 + off) <;> rw [h6] at h <;>
        simp only [PRes.ok_bind, PRes.fail_bind, PRes.bad_bind] at h <;>
        try exact PRes.noConfusion h
      rename_i token3
      split at h
      · cases h7 : sliceB token3 0 3 <;> rw [h7] at h <;>
          simp only [PRes.ok_bind, PRes.fail_bind, PRes.bad_bind] at h <;>
          try exact PRes.noConfusion h
        rename_i julian
        cases h8 : seat_raw_token token3 <;> rw [h8] at h <;>
          simp only [PRes.ok_bind, PRes.fail_bind, PRes.bad_bind] at h <;>
          try exact PRes.noConfusion h
        rename_i sraw
        cases h9 : sequence_token token3 <;> rw [h9] at h <;>
          simp only [PRes.ok_bind, PRes.fail_bind, PRes.bad_bind] at h <;>
          try exact PRes.noConfusion h
        rename_i seqn
        cases h10 : conditional_tokens tokens (3 + off + 1) <;> rw [h10] at h <;>
          simp only [PRes.ok_bind, PRes.fail_bind, PRes.bad_bind] at h <;>
          try exact PRes.noConfusion h
        rename_i cond
        simp only [PRes.pure_eq] at h
        injection h with h
        subst h
        have hs := seat_raw_token_eq token3
        rw [h8] at hs
        injection hs with hs
        refine ⟨sliceB_ok_length h2, sliceB_ok_length h3, sliceB_ok_length h4,
          token3, sraw, rfl, hs, rfl, rfl⟩
      · exact PRes.noConfusion h

theorem A_ok_inv {chars : Str} {r : PDF417Data}
    (h : try_parse_space_delimited chars = .ok r) :
    r.origin.length = 3 ∧ r.destination.length = 3 ∧ r.airline_code.length = 2 ∧
      ∃ e b off token3 seat_raw,
        eTicketSplit (splitWhitespace (chars.drop 22)) = .ok (e, b, off) ∧
        nthP (splitWhitespace (chars.drop 22)) (3 + off) = .ok token3 ∧
        seat_raw = (if 8 ≤ token3.length then trimChars ((token3.drop 4).take (8 - 4))
                    else []) ∧
        r.infant_status = (infant_seat seat_raw).1 ∧
        r.seat_number = (infant_seat seat_raw).2 := by
  unfold try_parse_space_delimited at h
  cases h1 : sliceB chars 2 22 <;> rw [h1] at h <;>
    simp only [PRes.ok_bind, PRes.fail_bind, PRes.bad_bind] at h <;>
    try exact PRes.noConfusion h
  rename_i pnraw
  split at h
  · cases h2 : sliceFrom chars 22 <;> rw [h2] at h <;>
      simp only [PRes.ok_bind, PRes.fail_bind, PRes.bad_bind] at h <;>
      try exact PRes.noConfusion h
    rename_i remainder
    have hrem : remainder = chars.drop 22 := sliceFrom_ok_inv h2
    subst hrem
    unfold space_delimited_fields at h
    split at h
    · exact PRes.noConfusion h
    · cases h3 : eTicketSplit (splitWhitespace (chars.drop 22)) <;> rw [h3] at h <;>
        simp only [PRes.ok_bind, PRes.fail_bind, PRes.bad_bind] at h <;>
        try exact PRes.noConfusion h
      rename_i ebo
      obtain ⟨hl1, hl2, hl3, token3, sraw, hn, hs, hi1, hi2⟩ := sdTail_ok_inv h
      exact ⟨hl1, hl2, hl3, ebo.1, ebo.2.1, ebo.2.2, token3, sraw, rfl, hn, hs,
        hi1, hi2⟩
  · exact PRes.noConfusion h

theorem strict_ok_inv {chars : Str} {r : PDF417Data}
    (h : try_parse_strict_iata chars = .ok r) :
    r.origin.length = 3 ∧ r.destination.length = 3 ∧ r.airline_code.length = 2 ∧
      ∃ seat_raw,
        seat_raw = (if 50 ≤ chars.length then trimChars ((chars.drop 46).take (50 - 46))
                    else []) ∧
        r.infant_status = (infant_seat seat_raw).1 ∧
        r.seat_number = (infant_seat seat_raw).2 := by
  unfold try_parse_strict_iata at h
  split at h
  · exact PRes.noConfusion h
  · simp only [] at h
    split at h
    · exact PRes.noConfusion h
    · cases h1 : sliceB chars 2 22 <;> rw [h1] at h <;>
        simp only [PRes.ok_bind, PRes.fail_bind, PRes.bad_bind] at h <;>
        try exact PRes.noConfusion h
      cases h2 : nthP chars 22 <;> rw [h2] at h <;>
        simp only [PRes.ok_bind, PRes.fail_bind, PRes.bad_bind] at h <;>
        try exact PRes.noConfusion h
      cases h3 : sliceB chars 23 29 <;> rw [h3] at h <;>
        simp only [PRes.ok_bind, PRes.fail_bind, PRes.bad_bind] at h <;>
        try exact PRes.noConfusion h
      cases h4 : sliceB chars 29 32 <;> rw [h4] at h <;>
        simp only [PRes.ok_bind, PRes.fail_bind, PRes.bad_bind] at h <;>
        try exact PRes.noConfusion h
      cases h5 : sliceB chars 32 35 <;> rw [h5] at h <;>
        simp only [PRes.ok_bind, PRes.fail_bind, PRes.bad_bind] at h <;>
        try exact PRes.noConfusion h
      cases h6 : sliceB chars 35 37 <;> rw [h6] at h <;>
        simp only [PRes.ok_bind, PRes.fail_bind, PRes.bad_bind] at h <;>
        try exact PRes.noConfusion h
      cases h7 : sliceB chars 37 42 <;> rw [h7] at h <;>
        simp only [PRes.ok_bind, PRes.fail_bind, PRes.bad_bind] at h <;>
        try exact PRes.noConfusion h
      cases h8 : sliceB chars 42 45 <;> rw [h8] at h <;>
        simp only [PRes.ok_bind, PRes.fail_bind, PRes.bad_bind] at h <;>
        try exact PRes.noConfusion h
      cases h9 : nthP chars 45 <;> rw [h9] at h <;>
        simp only [PRes.ok_bind, PRes.fail_bind, PRes.bad_bind] at h <;>
        try exact PRes.noConfusion h
      cases h10 : strict_seat_raw chars <;> rw [h10] at h <;>
        simp only [PRes.ok_bind, PRes.fail_bind, PRes.bad_bind] at h <;>
        try exact PRes.noConfusion h
      rename_i sraw
      cases h11 : strict_sequence chars <;> rw [h11] at h <;>
        simp only [PRes.ok_bind, PRes.fail_bind, PRes.bad_bind] at h <;>
        try exact PRes.noConfusion h
      cases h12 : strict_conditional chars <;> rw [h12] at h <;>
        simp only [PRes.ok_bind, PRes.fail_bind, PRes.bad_bind] at h <;>
        try exact PRes.noConfusion h
      simp only [PRes.pure_eq] at h
      injection h with h
      subst h
      have hs := strict_seat_raw_eq chars
      rw [h10] at hs
      injection hs with hs
      exact ⟨sliceB_ok_length h4, sliceB_ok_length h5, sliceB_ok_length h6,
        sraw, hs, rfl, rfl⟩

theorem parse_ok_cases {s : Str} {r : PDF417Data}
    (h : parse_iata_bcbp s = .ok r) :
    try_parse_space_delimited (normalize_barcode_data s) = .ok r ∨
      try_parse_strict_iata (normalize_barcode_data s) = .ok r := by
  unfold parse_iata_bcbp at h
  simp only [] at h
  split at h
  · exact PRes.noConfusion h
  · split at h
    · rename_i c0 heq
      split at h
      · exact PRes.noConfusion h
      · split at h
        · rename_i data hA
          injection h with h
          subst h
          exact Or.inl hA
        · rename_i hA
          split at h
          · rename_i data hB
            injection h with h
            subst h
            exact Or.inr hB
          · exact PRes.noConfusion h
          · exact PRes.noConfusion h
        · exact PRes.noConfusion h
    · exact PRes.noConfusion h
    · exact PRes.noConfusion h

theorem infant_seat_props (raw : Str) :
    ((infant_seat raw).1 = true ↔
      ((infant_seat raw).2 = [] ∧ containsStr raw ['I', 'N', 'F'] = true)) ∧
    ((infant_seat raw).1 = true → (infant_seat raw).2 = []) := by
  unfold infant_seat
  cases hc : containsStr raw ['I', 'N', 'F'] <;> simp [hc]

/-- C8: every successful parse, through either strategy, yields origin and
destination of exactly three characters and an airline code of exactly two
characters. -/
theorem C8_field_lengths (s : Str) (r : PDF417Data)
    (h : parse_iata_bcbp s = .ok r) :
    r.origin.length = 3 ∧ r.destination.length = 3 ∧ r.airline_code.length = 2 := by
  rcases parse_ok_cases h with hA | hB
  · exact ⟨(A_ok_inv hA).1, (A_ok_inv hA).2.1, (A_ok_inv hA).2.2.1⟩
  · exact ⟨(strict_ok_inv hB).1, (strict_ok_inv hB).2.1, (strict_ok_inv hB).2.2.1⟩

/-- C4: for every successful parse, the raw seat substring — characters 4 to
8 of the composite token at index 3 plus the token offset in Strategy A, or
positions 46 to 50 of the sequence in Strategy B, trimmed, empty when too
short — determines the infant fields: infant status is exactly the presence
of INF in that substring, the seat number is that substring cleared on an
infant, infant status holds iff the seat is empty and the substring contained
INF, and an infant always has an empty seat number.  The disjunction records
which strategy produced the record and ties the substring to its position in
that strategy. -/
theorem C4_infant_iff (s : Str) (r : PDF417Data)
    (h : parse_iata_bcbp s = .ok r) :
    ∃ seat_raw,
      ((try_parse_space_delimited (normalize_barcode_data s) = .ok r ∧
        ∃ e b off token3,
          eTicketSplit (splitWhitespace ((normalize_barcode_data s).drop 22)) =
            .ok (e, b, off) ∧
          nthP (splitWhitespace ((normalize_barcode_data s).drop 22)) (3 + off) =
            .ok token3 ∧
          seat_raw = (if 8 ≤ token3.length then
              trimChars ((token3.drop 4).take (8 - 4))
            else [])) ∨
       (try_parse_strict_iata (normalize_barcode_data s) = .ok r ∧
        seat_raw = (if 50 ≤ (normalize_barcode_data s).length then
            trimChars (((normalize_barcode_data s).drop 46).take (50 - 46))
          else []))) ∧
      r.infant_status = containsStr seat_raw ['I', 'N', 'F'] ∧
      r.seat_number = (if containsStr seat_raw ['I', 'N', 'F'] then [] else seat_raw) ∧
      (r.infant_status = true ↔
        (r.seat_number = [] ∧ containsStr seat_raw ['I', 'N', 'F'] = true)) ∧
      (r.infant_status = true → r.seat_number = []) := by
  rcases parse_ok_cases h with hA | hB
  · obtain ⟨_, _, _, e, b, off, token3, sraw, he, hn, hs, h1, h2⟩ := A_ok_inv hA
    refine ⟨sraw, Or.inl ⟨hA, e, b, off, token3, he, hn, hs⟩, ?_, ?_, ?_, ?_⟩
    · rw [h1]
      rfl
    · rw [h2]
      rfl
    · rw [h1, h2]
      exact (infant_seat_props sraw).1
    · rw [h1, h2]
      exact (infant_seat_props sraw).2
  · obtain ⟨_, _, _, sraw, hs, h1, h2⟩ := strict_ok_inv hB
    refine ⟨sraw, Or.inr ⟨hB, hs⟩, ?_, ?_, ?_, ?_⟩
    · rw [h1]
      rfl
    · rw [h2]
      rfl
    · rw [h1, h2]
      exact (infant_seat_props sraw).1
    · rw [h1, h2]
      exact (infant_seat_props sraw).2

set_option maxRecDepth 40000 in
theorem C8_field_lengths_witness :
    infantRecord.origin.length = 3 ∧ infantRecord.destination.length = 3 ∧
      infantRecord.airline_code.length = 2 :=
  C8_field_lengths infantInput infantRecord (by decide)

set_option maxRecDepth 40000 in
theorem C4_infant_iff_witness :
    ∃ seat_raw,
      ((try_parse_space_delimited (normalize_barcode_data infantInput) =
          .ok infantRecord ∧
        ∃ e b off token3,
          eTicketSplit
              (splitWhitespace ((normalize_barcode_data infantInput).drop 22)) =
            .ok (e, b, off) ∧
          nthP (splitWhitespace ((normalize_barcode_data infantInput).drop 22))
              (3 + off) =
            .ok token3 ∧
          seat_raw = (if 8 ≤ token3.length then
              trimChars ((token3.drop 4).take (8 - 4))
            else [])) ∨
       (try_parse_strict_iata (normalize_barcode_data infantInput) =
          .ok infantRecord ∧
        seat_raw = (if 50 ≤ (normalize_barcode_data infantInput).length then
            trimChars (((normalize_barcode_data infantInput).drop 46).take (50 - 46))
          else []))) ∧
      infantRecord.infant_status = containsStr seat_raw ['I', 'N', 'F'] ∧
      infantRecord.seat_number =
        (if containsStr seat_raw ['I', 'N', 'F'] then [] else seat_raw) ∧
      (infantRecord.infant_status = true ↔
        (infantRecord.seat_number = [] ∧
          containsStr seat_raw ['I', 'N', 'F'] = true)) ∧
      (infantRecord.infant_status = true → infantRecord.seat_number = []) :=
  C4_infant_iff infantInput infantRecord (by decide)

theorem strict_fail_short {chars : Str} (h : chars.length < 55) :
    try_parse_strict_iata chars = .fail := by
  unfold try_parse_strict_iata
  rw [if_pos h]

theorem strict_fail_spaces {chars : Str}
    (h : 5 < (chars.filter (fun c => c == ' ')).length) :
    try_parse_strict_iata chars = .fail := by
  unfold try_parse_strict_iata
  by_cases h55 : chars.length < 55
  · rw [if_pos h55]
  · rw [if_neg h55]
    simp only []
    rw [if_pos h]

theorem strict_ok_exists {chars : Str} (h55 : 55 ≤ chars.length)
    (hsp : (chars.filter (fun c => c == ' ')).length ≤ 5) :
    ∃ r, try_parse_strict_iata chars = .ok r := by
  unfold try_parse_strict_iata
  rw [if_neg (by omega)]
  simp only []
  rw [if_neg (by omega)]
  obtain ⟨e22, he22, _⟩ := @nthP_ok_of_lt Char chars 22 (by omega)
  obtain ⟨c45, hc45, _⟩ := @nthP_ok_of_lt Char chars 45 (by omega)
  obtain ⟨sr, hsr⟩ := strict_seat_raw_ok chars
  obtain ⟨sq, hsq⟩ := strict_sequence_ok chars
  obtain ⟨cd, hcd⟩ := strict_conditional_ok chars
  simp only [@sliceB_pos Char chars 2 22 (by omega) (by omega),
    @sliceB_pos Char chars 23 29 (by omega) (by omega),
    @sliceB_pos Char chars 29 32 (by omega) (by omega),
    @sliceB_pos Char chars 32 35 (by omega) (by omega),
    @sliceB_pos Char chars 35 37 (by omega) (by omega),
    @sliceB_pos Char chars 37 42 (by omega) (by omega),
    @sliceB_pos Char chars 42 45 (by omega) (by omega),
    he22, hc45, hsr, hsq, hcd, PRes.ok_bind, PRes.pure_eq]
  exact ⟨_, rfl⟩

/-- C6: Strategy B rejects every sequence shorter than 55 characters and
every sequence with more than five spaces; a sequence passing both guards is
never rejected for any other reason: a record is always produced. -/
theorem C6_strategyB_guards (chars : Str) :
    (chars.length < 55 → try_parse_strict_iata chars = .fail) ∧
    (5 < (chars.filter (fun c => c == ' ')).length →
      try_parse_strict_iata chars = .fail) ∧
    (55 ≤ chars.length → (chars.filter (fun c => c == ' ')).length ≤ 5 →
      ∃ r, try_parse_strict_iata chars = .ok r) :=
  ⟨fun h => strict_fail_short h, fun h => strict_fail_spaces h,
   fun h1 h2 => strict_ok_exists h1 h2⟩

theorem C6_strategyB_guards_witness :
    try_parse_strict_iata ['M'] = .fail ∧
    try_parse_strict_iata (List.replicate 60 ' ') = .fail ∧
    ∃ r, try_parse_strict_iata (List.replicate 60 'A') = .ok r :=
  ⟨(C6_strategyB_guards ['M']).1 (by decide),
   (C6_strategyB_guards (List.replicate 60 ' ')).2.1 (by decide),
   (C6_strategyB_guards (List.replicate 60 'A')).2.2 (by decide) (by decide)⟩

theorem strict_cases (chars : Str) :
    try_parse_strict_iata chars = .fail ∨
      ∃ r, try_parse_strict_iata chars = .ok r := by
  by_cases h1 : chars.length < 55
  · exact Or.inl (strict_fail_short h1)
  · by_cases h2 : 5 < (chars.filter (fun c => c == ' ')).length
    · exact Or.inl (strict_fail_spaces h2)
    · exact Or.inr (strict_ok_exists (by omega) (by omega))

theorem eTicketSplit_ok_any {tokens : List Str} (h : tokens ≠ []) :
    ∃ v, eTicketSplit tokens = .ok v := by
  rcases tokens with _ | ⟨t0, ts⟩
  · exact absurd rfl h
  · unfold eTicketSplit
    rw [show nthP (t0 :: ts) 0 = .ok t0 from rfl]
    simp only [PRes.ok_bind]
    split
    · rename_i hcond
      rcases t0 with _ | ⟨c, _ | ⟨d, ds⟩⟩
      · exfalso
        have := hcond.1
        simp at this
      · rw [show headP [c] = .ok c from rfl]
        simp only [PRes.ok_bind]
        split
        · exact ⟨_, rfl⟩
        · exact ⟨_, rfl⟩
      · exfalso
        have := hcond.1
        simp at this
    · exact ⟨_, rfl⟩

theorem sdTail_cases ( pn e b : Str) (tokens : List Str) (off : Nat) :
    sdTail pn e b tokens off = .fail ∨ ∃ r, sdTail pn e b tokens off = .ok r := by
  unfold sdTail
  simp only []
  split
  · exact Or.inl rfl
  · rename_i hguard
    obtain ⟨token1, ht1, _⟩ :=
      @nthP_ok_of_lt Str tokens (1 + off) (by simp only [not_le] at hguard; omega)
    rw [ht1]
    simp only [PRes.ok_bind]
    split
    · exact Or.inl rfl
    · rename_i h8
      simp only [not_lt] at h8
      obtain ⟨fnum, hf, _⟩ :=
        @nthP_ok_of_lt Str tokens (2 + off) (by simp only [not_le] at hguard; omega)
      obtain ⟨token3, ht3, _⟩ :=
        @nthP_ok_of_lt Str tokens (3 + off) (by simp only [not_le] at hguard; omega)
      obtain ⟨sr, hsr⟩ := seat_raw_token_ok token3
      obtain ⟨sq, hsq⟩ := sequence_token_ok token3
      obtain ⟨cd, hcd⟩ := conditional_tokens_ok tokens (3 + off + 1)
      simp only [@sliceB_pos Char token1 0 3 (by omega) (by omega),
        @sliceB_pos Char token1 3 6 (by omega) (by omega),
        @sliceB_pos Char token1 6 8 (by omega) (by omega),
        hf, ht3, PRes.ok_bind]
      split
      · rename_i h3
        simp only [@sliceB_pos Char token3 0 3 (by omega) (by omega),
          hsr, hsq, hcd, PRes.ok_bind, PRes.pure_eq]
        exact Or.inr ⟨_, rfl⟩
      · exact Or.inl rfl

theorem A_cases (chars : Str) (hlen : 22 ≤ chars.length) :
    try_parse_space_delimited chars = .fail ∨
      ∃ r, try_parse_space_delimited chars = .ok r := by
  unfold try_parse_space_delimited
  rw [@sliceB_pos Char chars 2 22 (by omega) (by omega)]
  simp only [PRes.ok_bind]
  split
  · rename_i h22
    rw [sliceFrom_pos (by omega)]
    simp only [PRes.ok_bind]
    unfold space_delimited_fields
    split
    · exact Or.inl rfl
    · rename_i h4
      obtain ⟨v, hv⟩ := @eTicketSplit_ok_any (splitWhitespace (chars.drop 22))
        (by intro hnil; rw [hnil] at h4; simp at h4)
      rw [hv]
      simp only [PRes.ok_bind]
      exact sdTail_cases _ _ _ _ _
  · exact Or.inl rfl

/-- C10: the parser is total and never hits an unguarded slice or index: on
every input it returns either a clean rejection or a record, never the
abnormal-termination marker. -/
theorem C10_parser_total (s : Str) :
    parse_iata_bcbp s = .fail ∨ ∃ r, parse_iata_bcbp s = .ok r := by
  unfold parse_iata_bcbp
  simp only []
  split
  · exact Or.inl rfl
  · rename_i h50
    simp only [not_lt] at h50
    split
    · rename_i c1 heq1
      split
      · exact Or.inl rfl
      · split
        · rename_i data hA2
          exact Or.inr ⟨data, rfl⟩
        · rename_i hA2
          split
          · rename_i data hB2
            exact Or.inr ⟨data, rfl⟩
          · exact Or.inl rfl
          · rename_i hB2
            rcases strict_cases (normalize_barcode_data s) with hB | ⟨r, hB⟩ <;>
              rw [hB2] at hB <;> exact PRes.noConfusion hB
        · rename_i hA2
          rcases A_cases (normalize_barcode_data s) (by omega) with hA | ⟨r, hA⟩ <;>
            rw [hA2] at hA <;> exact PRes.noConfusion hA
    · exact Or.inl rfl
    · rename_i heq
      obtain ⟨c0, hc0, _⟩ := @nthP_ok_of_lt Char (normalize_barcode_data s) 0 (by omega)
      rw [hc0] at heq
      exact PRes.noConfusion heq
